import Mathlib

/-!
Verification of the PPT_GENERATOR repository (App.py, "variant A", and
App1.py, "variant B") against its natural-language specification.

Python strings are embedded as `List Char`; machine-level details that the
scripts never rely on (Unicode digit classes beyond ASCII, the binary pptx
serialization) are modelled at the granularity the claims need.  Side
effects (streamlit display calls) are dropped; the remote generative call is
an oracle function `g : List Char → List Char` giving the response text.
-/

namespace PPTGen

/-- Characters treated as whitespace by Python's str.strip() with no
argument (space, tab, newline, carriage return, vertical tab, form feed). -/
def pyWhitespace (c : Char) : Bool :=
  c == ' ' || c == '\t' || c == '\n' || c == '\r' || c == '\x0b' || c == '\x0c'

/-- Python str.strip(): remove whitespace from both ends of the string. -/
def pyStrip (s : List Char) : List Char :=
  ((s.dropWhile pyWhitespace).reverse.dropWhile pyWhitespace).reverse

/-- Python content.rfind(" ", 0, e): the largest index i < e such that
content[i] is a space, if any (the source calls it with e = max_length while
len(content) > max_length, so the slice bound never clips the string). -/
def rfind_space (s : List Char) (e : Nat) : Option Nat :=
  (List.range e).reverse.find? (fun i => s[i]? == some ' ')

/-- The while loop of split_content from App.py, with explicit fuel: one
unit of fuel per loop iteration (plus the final append).  `none` models a
non-terminating run of the Python loop; for max_length ≥ 1 the remaining
text strictly shortens each iteration, so content.length + 1 fuel always
suffices (split_content_fuel_isSome below). -/
def split_content_fuel : Nat → List Char → Nat → Option (List (List Char))
  | 0, _, _ => none
  | fuel+1, content, max_length =>
    if content.length ≤ max_length then
      some [content]
    else
      let split_index :=
        match rfind_space content max_length with
        | some i => i
        | none => max_length
      (split_content_fuel fuel (pyStrip (content.drop split_index)) max_length).map
        (fun rest => content.take split_index :: rest)

/-- split_content(content, max_length) from App.py.  Runs the loop with
sufficient fuel; accurate for every max_length ≥ 1 (the only call site in
App.py uses max_length = 900). -/
def split_content (content : List Char) (max_length : Nat) : List (List Char) :=
  (split_content_fuel (content.length + 1) content max_length).getD []

/-- Interleaving concatenation: joinWith [c1, ..., cn] [w1, ..., w(n-1)]
is c1 ++ w1 ++ c2 ++ ... ++ cn.  Used to state that the chunks of
split_content reassemble to the input once the whitespace removed at the
cut points is restored. -/
def joinWith : List (List Char) → List (List Char) → List Char
  | [], _ => []
  | [c], _ => c
  | c :: cs, [] => c ++ joinWith cs []
  | c :: cs, w :: ws => c ++ w ++ joinWith cs ws

theorem pyStrip_length_le (s : List Char) : (pyStrip s).length ≤ s.length := by
  unfold pyStrip
  simp only [List.length_reverse]
  calc ((s.dropWhile pyWhitespace).reverse.dropWhile pyWhitespace).length
      ≤ (s.dropWhile pyWhitespace).reverse.length :=
        (List.dropWhile_sublist pyWhitespace).length_le
    _ = (s.dropWhile pyWhitespace).length := List.length_reverse _
    _ ≤ s.length := (List.dropWhile_sublist pyWhitespace).length_le

theorem pyStrip_cons_ws_length (c : Char) (t : List Char) (h : pyWhitespace c = true) :
    (pyStrip (c :: t)).length ≤ t.length := by
  have h1 : pyStrip (c :: t) = pyStrip t := by
    unfold pyStrip
    rw [List.dropWhile_cons_of_pos h]
  rw [h1]
  exact pyStrip_length_le t

theorem rfind_space_spec (s : List Char) (e i : Nat) (h : rfind_space s e = some i) :
    i < e ∧ s[i]? = some ' ' := by
  unfold rfind_space at h
  have h1 := List.mem_of_find?_eq_some h
  have h2 := List.find?_some h
  rw [List.mem_reverse, List.mem_range] at h1
  exact ⟨h1, by simpa using h2⟩

theorem split_content_step_lt (content : List Char) (max_length : Nat)
    (hm : 1 ≤ max_length) (hl : max_length < content.length) :
    ∀ idx, (rfind_space content max_length = some idx ∨
            (rfind_space content max_length = none ∧ idx = max_length)) →
      (pyStrip (content.drop idx)).length < content.length := by
  intro idx hidx
  rcases hidx with hsome | ⟨_, hnone⟩
  · obtain ⟨hie, hsp⟩ := rfind_space_spec content max_length idx hsome
    have hil : idx < content.length := lt_trans hie hl
    have hdrop : content.drop idx = content[idx] :: content.drop (idx + 1) :=
      List.drop_eq_getElem_cons hil
    have hgc : content[idx] = ' ' := by
      have := List.getElem?_eq_getElem hil
      rw [this] at hsp
      exact Option.some.inj hsp
    have hws : pyWhitespace content[idx] = true := by
      rw [hgc]; rfl
    calc (pyStrip (content.drop idx)).length
        = (pyStrip (content[idx] :: content.drop (idx + 1))).length := by rw [← hdrop]
      _ ≤ (content.drop (idx + 1)).length := pyStrip_cons_ws_length _ _ hws
      _ = content.length - (idx + 1) := List.length_drop ..
      _ < content.length := by omega
  · rw [hnone]
    calc (pyStrip (content.drop max_length)).length
        ≤ (content.drop max_length).length := pyStrip_length_le _
      _ = content.length - max_length := List.length_drop ..
      _ < content.length := by omega

theorem split_content_fuel_succ_none (n : Nat) (c : List Char) (m : Nat)
    (hle : ¬ c.length ≤ m) (hfind : rfind_space c m = none) :
    split_content_fuel (n+1) c m
      = (split_content_fuel n (pyStrip (c.drop m)) m).map (fun rest => c.take m :: rest) := by
  simp [split_content_fuel, hle, hfind]

theorem split_content_fuel_succ_some (n : Nat) (c : List Char) (m i : Nat)
    (hle : ¬ c.length ≤ m) (hfind : rfind_space c m = some i) :
    split_content_fuel (n+1) c m
      = (split_content_fuel n (pyStrip (c.drop i)) m).map (fun rest => c.take i :: rest) := by
  simp [split_content_fuel, hle, hfind]

theorem split_content_fuel_isSome (max_length : Nat) (hm : 1 ≤ max_length) :
    ∀ fuel content, content.length < fuel →
      ∃ r, split_content_fuel fuel content max_length = some r := by
  intro fuel
  induction fuel with
  | zero => intro c h; omega
  | succ n ih =>
    intro c hc
    by_cases hle : c.length ≤ max_length
    · exact ⟨[c], by simp [split_content_fuel, hle]⟩
    · have hl : max_length < c.length := by omega
      cases hfind : rfind_space c max_length with
      | none =>
        have hlt := split_content_step_lt c max_length hm hl max_length (Or.inr ⟨hfind, rfl⟩)
        obtain ⟨r, hr⟩ := ih (pyStrip (c.drop max_length)) (by omega)
        exact ⟨c.take max_length :: r, by simp [split_content_fuel, hle, hfind, hr]⟩
      | some i =>
        have hlt := split_content_step_lt c max_length hm hl i (Or.inl hfind)
        obtain ⟨r, hr⟩ := ih (pyStrip (c.drop i)) (by omega)
        exact ⟨c.take i :: r, by simp [split_content_fuel, hle, hfind, hr]⟩

theorem split_content_fuel_ne_nil (fuel : Nat) (c : List Char) (m : Nat)
    (r : List (List Char)) (h : split_content_fuel fuel c m = some r) : r ≠ [] := by
  cases fuel with
  | zero => simp [split_content_fuel] at h
  | succ n =>
    by_cases hle : c.length ≤ m
    · simp [split_content_fuel, hle] at h
      simp [← h]
    · cases hfind : rfind_space c m with
      | none =>
        rw [split_content_fuel_succ_none n c m hle hfind, Option.map_eq_some'] at h
        obtain ⟨rest, _, hr⟩ := h
        simp [← hr]
      | some i =>
        rw [split_content_fuel_succ_some n c m i hle hfind, Option.map_eq_some'] at h
        obtain ⟨rest, _, hr⟩ := h
        simp [← hr]

theorem split_content_fuel_chunk_le (m : Nat) :
    ∀ fuel c r, split_content_fuel fuel c m = some r →
      ∀ chunk ∈ r, chunk.length ≤ m := by
  intro fuel
  induction fuel with
  | zero => intro c r h; simp [split_content_fuel] at h
  | succ n ih =>
    intro c r h chunk hchunk
    by_cases hle : c.length ≤ m
    · simp [split_content_fuel, hle] at h
      rw [← h] at hchunk
      simp at hchunk
      rw [hchunk]; exact hle
    · cases hfind : rfind_space c m with
      | none =>
        rw [split_content_fuel_succ_none n c m hle hfind, Option.map_eq_some'] at h
        obtain ⟨rest, hrest, hr⟩ := h
        rw [← hr] at hchunk
        rcases List.mem_cons.mp hchunk with hhd | htl
        · rw [hhd]
          simp only [List.length_take]
          omega
        · exact ih _ _ hrest chunk htl
      | some i =>
        obtain ⟨hie, _⟩ := rfind_space_spec c m i hfind
        rw [split_content_fuel_succ_some n c m i hle hfind, Option.map_eq_some'] at h
        obtain ⟨rest, hrest, hr⟩ := h
        rw [← hr] at hchunk
        rcases List.mem_cons.mp hchunk with hhd | htl
        · rw [hhd]
          simp only [List.length_take]
          omega
        · exact ih _ _ hrest chunk htl

theorem pyStrip_decomp (s : List Char) :
    ∃ a b, (∀ c ∈ a, pyWhitespace c = true) ∧ (∀ c ∈ b, pyWhitespace c = true)
      ∧ s = a ++ pyStrip s ++ b := by
  refine ⟨s.takeWhile pyWhitespace,
    ((s.dropWhile pyWhitespace).reverse.takeWhile pyWhitespace).reverse, ?_, ?_, ?_⟩
  · intro c hc; exact List.mem_takeWhile_imp hc
  · intro c hc
    rw [List.mem_reverse] at hc
    exact List.mem_takeWhile_imp hc
  · have ht : s.dropWhile pyWhitespace
        = pyStrip s ++ ((s.dropWhile pyWhitespace).reverse.takeWhile pyWhitespace).reverse := by
      conv_lhs => rw [← List.reverse_reverse (s.dropWhile pyWhitespace),
        ← List.takeWhile_append_dropWhile pyWhitespace (s.dropWhile pyWhitespace).reverse]
      rw [List.reverse_append]
      rfl
    conv_lhs => rw [← List.takeWhile_append_dropWhile pyWhitespace s, ht]
    rw [List.append_assoc]

theorem split_content_fuel_join :
    ∀ fuel c m r, split_content_fuel fuel c m = some r →
      ∃ ws wend, ws.length + 1 = r.length
        ∧ (∀ w ∈ ws, ∀ ch ∈ w, pyWhitespace ch = true)
        ∧ (∀ ch ∈ wend, pyWhitespace ch = true)
        ∧ joinWith r ws ++ wend = c := by
  intro fuel
  induction fuel with
  | zero => intro c m r h; simp [split_content_fuel] at h
  | succ n ih =>
    intro c m r h
    by_cases hle : c.length ≤ m
    · simp [split_content_fuel, hle] at h
      refine ⟨[], [], by simp [← h], by simp, by simp, ?_⟩
      rw [← h]
      simp [joinWith]
    · have key : ∀ idx rest, split_content_fuel n (pyStrip (c.drop idx)) m = some rest →
          r = c.take idx :: rest →
          ∃ ws wend, ws.length + 1 = r.length
            ∧ (∀ w ∈ ws, ∀ ch ∈ w, pyWhitespace ch = true)
            ∧ (∀ ch ∈ wend, pyWhitespace ch = true)
            ∧ joinWith r ws ++ wend = c := by
        intro idx rest hrest hr
        obtain ⟨ws', wend', hlen, hws, hwend, hjoin⟩ := ih _ _ _ hrest
        obtain ⟨a, b, ha, hb, hdec⟩ := pyStrip_decomp (c.drop idx)
        have hdec' : c.drop idx = a ++ (pyStrip (c.drop idx) ++ b) := by
          rw [← List.append_assoc]; exact hdec
        have hrne : rest ≠ [] := split_content_fuel_ne_nil _ _ _ _ hrest
        obtain ⟨y, ys, hyys⟩ := List.exists_cons_of_ne_nil hrne
        refine ⟨a :: ws', wend' ++ b, ?_, ?_, ?_, ?_⟩
        · simp [hr, ← hlen]
        · intro w hw
          rcases List.mem_cons.mp hw with hwa | hwtl
          · rw [hwa]; exact ha
          · exact hws w hwtl
        · intro ch hch
          rcases List.mem_append.mp hch with h1 | h2
          · exact hwend ch h1
          · exact hb ch h2
        · rw [hr, hyys]
          have hj : joinWith (c.take idx :: y :: ys) (a :: ws')
              = c.take idx ++ a ++ joinWith (y :: ys) ws' := rfl
          rw [hj]
          rw [hyys] at hjoin
          calc c.take idx ++ a ++ joinWith (y :: ys) ws' ++ (wend' ++ b)
              = c.take idx ++ (a ++ ((joinWith (y :: ys) ws' ++ wend') ++ b)) := by
                simp [List.append_assoc]
            _ = c.take idx ++ (a ++ (pyStrip (c.drop idx) ++ b)) := by rw [hjoin]
            _ = c.take idx ++ c.drop idx := by rw [← hdec']
            _ = c := List.take_append_drop idx c
      cases hfind : rfind_space c m with
      | none =>
        rw [split_content_fuel_succ_none n c m hle hfind, Option.map_eq_some'] at h
        obtain ⟨rest, hrest, hr⟩ := h
        exact key m rest hrest hr.symm
      | some i =>
        rw [split_content_fuel_succ_some n c m i hle hfind, Option.map_eq_some'] at h
        obtain ⟨rest, hrest, hr⟩ := h
        exact key i rest hrest hr.symm

theorem split_content_eq_fuel (c : List Char) (m : Nat) (hm : 1 ≤ m) :
    split_content_fuel (c.length + 1) c m = some (split_content c m) := by
  obtain ⟨r, hr⟩ := split_content_fuel_isSome m hm (c.length + 1) c (by omega)
  rw [split_content, hr]
  simp [hr]

/-- C4: For every input string and every positive maximum length, no chunk
returned by split_content exceeds the configured maximum length.  Proved in
the strong, unconditional form: the claim's exception for a single
whitespace-free over-long word never materializes, because the loop falls
back to a hard cut at exactly max_length characters, so even such a word is
cut to chunks of length ≤ max_length. -/
theorem split_content_chunk_length_bound (content : List Char) (max_length : Nat)
    (hm : 1 ≤ max_length) :
    ∀ chunk ∈ split_content content max_length, chunk.length ≤ max_length := by
  intro chunk hchunk
  exact split_content_fuel_chunk_le max_length _ content _
    (split_content_eq_fuel content max_length hm) chunk hchunk

def c4_input : List Char := "a bc def ghij".toList

/-- Witness for C4 at a concrete input and maximum length 4. -/
theorem split_content_chunk_length_bound_witness :
    1 ≤ 4 ∧ ∀ chunk ∈ split_content c4_input 4, chunk.length ≤ 4 :=
  ⟨by decide, split_content_chunk_length_bound c4_input 4 (by decide)⟩

/-- C9: for every input string and maximum length ≥ 1 the loop of
split_content terminates (content.length + 1 fuel units suffice, because the
remaining text strictly shortens every iteration) and the resulting chunk
list is non-empty, so the deck assembler's access to content_chunks[0] in
App.py never fails, even on the empty string. -/
theorem split_content_terminates_nonempty (content : List Char) (max_length : Nat)
    (hm : 1 ≤ max_length) :
    split_content_fuel (content.length + 1) content max_length
        = some (split_content content max_length)
      ∧ split_content content max_length ≠ [] := by
  have h := split_content_eq_fuel content max_length hm
  exact ⟨h, split_content_fuel_ne_nil _ _ _ _ h⟩

def c9_empty : List Char := []

/-- Witness for C9 at the empty string and maximum length 1. -/
theorem split_content_terminates_nonempty_witness :
    split_content_fuel (c9_empty.length + 1) c9_empty 1 = some (split_content c9_empty 1)
      ∧ split_content c9_empty 1 ≠ [] :=
  split_content_terminates_nonempty c9_empty 1 (by decide)

/-- C5 (amended): the chunks of split_content, concatenated in order with
the whitespace trimmed at each cut point restored between them AND with the
whitespace trimmed from the end of the text restored at the end, equal the
original input.  (The trailing restoration is forced: strip() also removes
whitespace from the far end of the remainder; see the counterexample.) -/
theorem split_content_join_restores (content : List Char) (max_length : Nat)
    (hm : 1 ≤ max_length) :
    ∃ ws wend, ws.length + 1 = (split_content content max_length).length
      ∧ (∀ w ∈ ws, ∀ ch ∈ w, pyWhitespace ch = true)
      ∧ (∀ ch ∈ wend, pyWhitespace ch = true)
      ∧ joinWith (split_content content max_length) ws ++ wend = content :=
  split_content_fuel_join _ content max_length _
    (split_content_eq_fuel content max_length hm)

def c5_input : List Char := "aa b ".toList

/-- Witness for C5 (amended) at a concrete input with maximum length 2. -/
theorem split_content_join_restores_witness :
    ∃ ws wend, ws.length + 1 = (split_content c5_input 2).length
      ∧ (∀ w ∈ ws, ∀ ch ∈ w, pyWhitespace ch = true)
      ∧ (∀ ch ∈ wend, pyWhitespace ch = true)
      ∧ joinWith (split_content c5_input 2) ws ++ wend = c5_input :=
  split_content_join_restores c5_input 2 (by decide)

/-- C5 as stated is false: for the input "aa b " with maximum length 2 the
chunks are ["aa", "b"]; the trailing space of the input is stripped away
with the remainder and is not at any cut point, so no insertion of
whitespace at the single cut point can reproduce the original text. -/
theorem split_content_join_counterexample :
    ¬ ∃ ws : List (List Char), ws.length + 1 = (split_content c5_input 2).length
      ∧ (∀ w ∈ ws, ∀ ch ∈ w, pyWhitespace ch = true)
      ∧ joinWith (split_content c5_input 2) ws = c5_input := by
  intro ⟨ws, hlen, _, hjoin⟩
  have hchunks : split_content c5_input 2 = [['a', 'a'], ['b']] := by decide
  rw [hchunks] at hlen hjoin
  simp at hlen
  obtain ⟨w, hw⟩ := List.length_eq_one.mp hlen
  rw [hw] at hjoin
  have hjoin2 : ['a', 'a'] ++ (w ++ ['b']) = c5_input := hjoin
  have hrev := congrArg List.reverse hjoin2
  rw [List.reverse_append, List.reverse_append] at hrev
  have hc : c5_input.reverse = [' ', 'b', ' ', 'a', 'a'] := by decide
  rw [hc] at hrev
  simp at hrev

/-- A slide of the assembled deck: the index of the layout it was added
with (prs.slide_layouts[0] is the title-slide layout, [1] the
title-and-content layout), the text of the title placeholder, and the text
of the second placeholder (subtitle or body).  Font sizes, alignment and
bullet settings are pure formatting and are not modelled. -/
structure Slide where
  layout : Nat
  title : List Char
  body : List Char
deriving DecidableEq, Repr

/-- The GOOGLE_API_KEY environment variable: none models an unset variable.
Python's check `if not GEMINI_API_KEY` treats both None and the empty
string as missing. -/
def key_missing (key : Option (List Char)) : Bool :=
  key == none || key == some []

def ERR_MISSING_KEY : List Char := "Error: Missing API key.".toList

/-- generate_content from App.py and App1.py: with a missing or empty
credential it returns the sentinel error string; otherwise the remote call
is modelled by the oracle g, whose value is the response text on success,
or the string the except-branch returns when the call raised. -/
def generate_content (key : Option (List Char)) (g : List Char → List Char)
    (prompt : List Char) : List Char :=
  if key_missing key then ERR_MISSING_KEY else g prompt

def sq : Char := Char.ofNat 39

/-- Python repr of a string containing neither quotes nor backslashes: the
string in single quotes (ASCII 39).  Only used to build the prompt text,
which the scripts never parse. -/
def py_repr_str (s : List Char) : List Char := sq :: s ++ [sq]

def py_join (sep : List Char) : List (List Char) → List Char
  | [] => []
  | [x] => x
  | x :: xs => x ++ sep ++ py_join sep xs

def comma_space : List Char := ", ".toList

/-- Python str() of a list of strings, as the f-string of App.py
interpolates the topics list: bracketed, comma-separated element reprs. -/
def py_repr_str_list (l : List (List Char)) : List Char :=
  '[' :: py_join comma_space (l.map py_repr_str) ++ [']']

/-- The prompt f-string of App.py (the whole topics list is interpolated). -/
def promptA (title : List Char) (topics : List (List Char)) : List Char :=
  "Generate ppt for the topic:".toList ++ py_repr_str_list topics
    ++ " under title ".toList ++ title

def GENERATED_BY : List Char := "Generated by AI".toList

def titleSlideA (title : List Char) : Slide := ⟨0, title, GENERATED_BY⟩

/-- The content slides App.py appends for one topic: the blob is split with
max_length=900 and each chunk becomes one layout-1 slide titled by the
topic (the first chunk and the remaining chunks produce the same slide
structure; they differ only in paragraph formatting, which is not
modelled). -/
def topic_slides (content : List Char) (topic : List Char) : List Slide :=
  (split_content content 900).map (fun chunk => ⟨1, topic, chunk⟩)

def PPTX_EXT : List Char := ".pptx".toList

/-- The output file name f-string of App.py: the title with spaces replaced
by underscores, plus the .pptx extension. -/
def file_name_A (title : List Char) : List Char :=
  title.map (fun c => if c == ' ' then '_' else c) ++ PPTX_EXT

/-- create_presentation from App.py.  The result pair is (file name, deck):
prs.save(file_name) unconditionally writes exactly this deck to that file
and the function returns the file name.  Nothing in App.py checks the
Error sentinel of the generated content. -/
def create_presentationA (key : Option (List Char)) (g : List Char → List Char)
    (title : List Char) (topics : List (List Char)) : List Char × List Slide :=
  let content := generate_content key g (promptA title topics)
  (file_name_A title,
    titleSlideA title :: topics.flatMap (fun topic => topic_slides content topic))

/-- C8: in App.py the blob is generated once, before the per-topic loop,
and every topic's chunk sequence is computed from that same blob; the deck
is the title slide followed by the per-topic segments, and the sequences of
content-slide body texts of any two topic segments are identical. -/
theorem single_blob_reused (key : Option (List Char)) (g : List Char → List Char)
    (title : List Char) (topics : List (List Char)) (i j : Nat)
    (hi : i < topics.length) (hj : j < topics.length) :
    (create_presentationA key g title topics).2
        = titleSlideA title :: topics.flatMap (fun topic =>
            topic_slides (generate_content key g (promptA title topics)) topic)
      ∧ (topic_slides (generate_content key g (promptA title topics))
            (topics.get ⟨i, hi⟩)).map Slide.body
        = (topic_slides (generate_content key g (promptA title topics))
            (topics.get ⟨j, hj⟩)).map Slide.body := by
  constructor
  · rfl
  · simp [topic_slides]

def c8_g : List Char → List Char := fun _ => "some generated text".toList

def c8_title : List Char := "T".toList

def c8_topics : List (List Char) := [ "A".toList, "B".toList]

/-- Witness for C8 at two concrete topics. -/
theorem single_blob_reused_witness :
    (create_presentationA none c8_g c8_title c8_topics).2
        = titleSlideA c8_title :: c8_topics.flatMap (fun topic =>
            topic_slides (generate_content none c8_g (promptA c8_title c8_topics)) topic)
      ∧ (topic_slides (generate_content none c8_g (promptA c8_title c8_topics))
            (c8_topics.get ⟨0, by decide⟩)).map Slide.body
        = (topic_slides (generate_content none c8_g (promptA c8_title c8_topics))
            (c8_topics.get ⟨1, by decide⟩)).map Slide.body :=
  single_blob_reused none c8_g c8_title c8_topics 0 1 (by decide) (by decide)

/-- The character class \d of the regexes in App1.py, on its ASCII range
(the scripts only ever meet ASCII digits). -/
def is_digit (c : Char) : Bool := c.isDigit

def SLIDE_SP : List Char := "Slide ".toList

/-- Match of the regex fragment "Slide \d+:" at the head of l, returning
the length of the matched header ("Slide " + digits + colon).  The greedy
\d+ followed by a literal colon succeeds exactly when the maximal digit run
is non-empty and the character right after it is a colon: backtracking to a
shorter digit run would place the colon on a digit and fail. -/
def marker_head (l : List Char) : Option Nat :=
  if l.take 6 = SLIDE_SP then
    if 1 ≤ ((l.drop 6).takeWhile is_digit).length
        ∧ (l.drop (6 + ((l.drop 6).takeWhile is_digit).length)).head? = some ':' then
      some (6 + ((l.drop 6).takeWhile is_digit).length + 1)
    else none
  else none

/-- Positions where the regex anchor `$` (without MULTILINE) matches, in
suffix form: at the end of the string, or just before a newline that is the
last character. -/
def is_dollar (l : List Char) : Bool := l == [] || l == ['\n']

/-- A position where the lazy `.*?` of the slide pattern may stop: the
lookahead (?=Slide \d+:|$) succeeds there. -/
def stop_here (l : List Char) : Bool := (marker_head l).isSome || is_dollar l

/-- Offset of the first stopping position within l (0 if l itself stops;
some stop always exists because the empty suffix matches $). -/
def lazy_scan : List Char → Nat
  | [] => 0
  | c :: t => if stop_here (c :: t) then 0 else lazy_scan t + 1

/-- The scanning loop of re.findall for the DOTALL pattern
(Slide \d+:.*?)(?=Slide \d+:|$), in suffix form with explicit fuel (one
unit per step; every match consumes at least its 8-character header, so
length + 1 fuel always suffices).  At each position: no match means advance
one character; a match spans the header plus the lazy minimal stretch up to
the next marker or $, and scanning resumes right after the match. -/
def scan_fuel : Nat → List Char → List (List Char)
  | 0, _ => []
  | fuel+1, l =>
    match marker_head l with
    | none =>
      match l with
      | [] => []
      | _ :: t => scan_fuel fuel t
    | some hl =>
      let j := hl + lazy_scan (l.drop hl)
      l.take j :: scan_fuel fuel (l.drop j)

/-- slide_pattern.findall(content) from split_into_slides of App1.py. -/
def findall_slides (content : List Char) : List (List Char) :=
  scan_fuel (content.length + 1) content

/-- The f"**{match}" step of split_into_slides: prepend the synthetic bold
marker. -/
def bold_wrap (m : List Char) : List Char := '*' :: '*' :: m

/-- split_into_slides from App1.py: every regex match is trimmed of its
last two characters (match[:-2]) and wrapped with the bold marker. -/
def split_into_slides (content : List Char) : List (List Char) :=
  (findall_slides content).map (fun m => bold_wrap (m.take (m.length - 2)))

/-- Python str.replace("**", ""): remove all non-overlapping occurrences of
the double asterisk, scanning left to right. -/
def py_replace_ds : List Char → List Char
  | [] => []
  | [c] => [c]
  | c1 :: c2 :: t =>
    if c1 == '*' && c2 == '*' then py_replace_ds t
    else c1 :: py_replace_ds (c2 :: t)

/-- remove_double_asteris from App1.py. -/
def remove_double_asteris (input_list : List (List Char)) : List (List Char) :=
  input_list.map py_replace_ds

/-- Whether a string contains the marker sequence "**" (two consecutive
asterisks) anywhere. -/
def has_double_asteris : List Char → Bool
  | [] => false
  | [_] => false
  | c1 :: c2 :: t => (c1 == '*' && c2 == '*') || has_double_asteris (c2 :: t)

/-- The number of well-formed "Slide <n>:" markers in a blob: the number of
positions whose suffix begins with a marker header. -/
def marker_count : List Char → Nat
  | [] => 0
  | c :: t => (if (marker_head (c :: t)).isSome then 1 else 0) + marker_count t

/-- Python s.split("\n", 1): at most one split, at the first newline. -/
def py_split1_nl (s : List Char) : List (List Char) :=
  if s.contains '\n' then
    [s.takeWhile (fun c => c != '\n'), (s.dropWhile (fun c => c != '\n')).tail]
  else [s]

/-- Python s.split("\n") with no limit. -/
def py_split_nl : List Char → List (List Char)
  | [] => [[]]
  | c :: t =>
    if c == '\n' then [] :: py_split_nl t
    else
      match py_split_nl t with
      | [] => [[c]]
      | h :: r => (c :: h) :: r

def star_space (c : Char) : Bool := c == '*' || c == ' '

/-- Python str.strip("* "): remove asterisks and spaces from both ends. -/
def pyStripStarSpace (s : List Char) : List Char :=
  ((s.dropWhile star_space).reverse.dropWhile star_space).reverse

def COLON_SP : List Char := ": ".toList

/-- re.match(r"Slide (\d+): (.+)", header): anchored prefix match.  Group 1
is the maximal digit run (non-empty, and necessarily followed by
colon-space), group 2 the non-empty remainder of the header (headers never
contain a newline, so the greedy `.+` takes everything to the end). -/
def parse_header (h : List Char) : Option (List Char × List Char) :=
  if h.take 6 = SLIDE_SP then
    let ds := (h.drop 6).takeWhile is_digit
    let rest := h.drop (6 + ds.length)
    if ds != [] && rest.take 2 == COLON_SP && rest.drop 2 != [] then
      some (ds, rest.drop 2)
    else none
  else none

/-- process_slide_title from App1.py: (slide number, stripped title,
comma-joined cleaned points) when the fragment has a newline and the
stripped first line matches "Slide (\d+): (.+)"; otherwise None. -/
def process_slide_title (slide : List Char) : Option (List Char × List Char × List Char) :=
  match py_split1_nl slide with
  | [p0, p1] =>
    match parse_header (pyStrip p0) with
    | some x =>
      let points := pyStrip p1
      let points_list := (py_split_nl points).filterMap (fun point =>
        if pyStrip point != [] then some (pyStrip (pyStripStarSpace point)) else none)
      some (x.1, pyStrip x.2, py_join comma_space points_list)
    | none => none
  | _ => none

/-- generate_ppt from App1.py: one layout-1 slide per fragment, titled
f"{no}.{title}" with the points string as body.  The destructuring
`no,title,content = process_slide_title(slide_content)` raises a TypeError
on None; that unhandled crash is modelled by `none` (no stream produced). -/
def generate_ppt : List (List Char) → Option (List Slide)
  | [] => some []
  | sc :: rest =>
    match process_slide_title sc with
    | none => none
    | some x =>
      match generate_ppt rest with
      | some slides => some (⟨1, x.1 ++ '.' :: x.2.1, x.2.2⟩ :: slides)
      | none => none

/-- The prompt f-string of App1.py (topics joined with comma-space). -/
def promptB (title : List Char) (topics : List (List Char)) : List Char :=
  "Generate ppt for the topic: ".toList ++ py_join comma_space topics
    ++ " under title ".toList ++ title

def ERROR_PREFIX : List Char := "Error".toList

/-- Python content.startswith(p). -/
def py_startswith (p s : List Char) : Bool := s.take p.length == p

/-- create_presentation from App1.py: inl is the early return of the error
string (which is exactly the case the caller's isinstance/startswith test
recognizes), inr the filtered fragment list handed to the caller. -/
def create_presentationB (key : Option (List Char)) (g : List Char → List Char)
    (title : List Char) (topics : List (List Char)) :
    Sum (List Char) (List (List Char)) :=
  let content := generate_content key g (promptB title topics)
  if py_startswith ERROR_PREFIX content then Sum.inl content
  else Sum.inr (remove_double_asteris (split_into_slides content))

/-- The topics list comprehension of both submit handlers. -/
def parse_topics (topics_input : List Char) : List (List Char) :=
  (py_split_nl topics_input).filterMap (fun t =>
    if pyStrip t != [] then some (pyStrip t) else none)

/-- Outcome of App1.py's submit branch, as observable in the UI: an error
message, a successful run offering the assembled deck for download, or an
unhandled exception. -/
inductive UIOutcomeB where
  | errorShown (msg : List Char)
  | downloadOffered (deck : List Slide)
  | crashed
deriving DecidableEq, Repr

def NO_TOPIC_MSG : List Char := "Please enter at least one topic.".toList

/-- The `if submit:` block of App1.py. -/
def submitB (key : Option (List Char)) (g : List Char → List Char)
    (title : List Char) (topics_input : List Char) : UIOutcomeB :=
  let topics := parse_topics topics_input
  if topics.isEmpty then UIOutcomeB.errorShown NO_TOPIC_MSG
  else
    match create_presentationB key g title topics with
    | Sum.inl err => UIOutcomeB.errorShown err
    | Sum.inr slides =>
      match generate_ppt slides with
      | some deck => UIOutcomeB.downloadOffered deck
      | none => UIOutcomeB.crashed

theorem py_replace_ds_id (x : List Char) (h : has_double_asteris x = false) :
    py_replace_ds x = x := by
  induction x using py_replace_ds.induct with
  | case1 => rfl
  | case2 c => rfl
  | case3 c1 c2 t hds ih =>
    exfalso
    simp only [has_double_asteris, hds, Bool.true_or] at h
    exact absurd h (by decide)
  | case4 c1 c2 t hds ih =>
    have hr : has_double_asteris (c2 :: t) = false := by
      simp only [has_double_asteris, Bool.or_eq_false_iff] at h
      exact h.2
    simp only [py_replace_ds]
    rw [if_neg hds, ih hr]

/-- C7: for every string x not containing the marker sequence "**",
removing the formatting markers after wrapping x with the synthetic bold
marker (the f-string step of split_into_slides) gives back x. -/
theorem remove_after_wrap_id (x : List Char) (h : has_double_asteris x = false) :
    remove_double_asteris [bold_wrap x] = [x] := by
  have h1 : py_replace_ds (bold_wrap x) = py_replace_ds x := rfl
  simp [remove_double_asteris, h1, py_replace_ds_id x h]

def c7_x : List Char := "Slide 1: Alpha\npoint".toList

/-- Witness for C7 at a concrete marker-free string. -/
theorem remove_after_wrap_id_witness :
    has_double_asteris c7_x = false ∧ remove_double_asteris [bold_wrap c7_x] = [c7_x] :=
  ⟨by decide, remove_after_wrap_id c7_x (by decide)⟩

/-- C3 (amended): a fragment that does not decompose as a
"Slide <n>: <heading>" header plus newline plus points makes
process_slide_title return None, and the deck assembler's unguarded
destructuring of that None raises an unhandled error: generate_ppt aborts
with no deck at all, rather than skipping the fragment and assembling the
rest. -/
theorem malformed_fragment_aborts (frs : List (List Char)) (f : List Char)
    (hf : f ∈ frs) (hnone : process_slide_title f = none) :
    generate_ppt frs = none := by
  induction frs with
  | nil => cases hf
  | cons a rest ih =>
    rcases List.mem_cons.mp hf with rfl | hmem
    · simp [generate_ppt, hnone]
    · cases hpa : process_slide_title a with
      | none => simp [generate_ppt, hpa]
      | some x => simp [generate_ppt, hpa, ih hmem]

def c3_bad : List Char := "bad".toList

def c3_good : List Char := "Slide 1: A\n*p".toList

/-- C3 counterexample to the claim as stated: a run with one malformed
fragment (no newline, no header) and one well-formed fragment does not
silently skip the malformed one and assemble the rest — generate_ppt
crashes (None) and nothing is assembled at all. -/
theorem malformed_fragment_not_skipped :
    process_slide_title c3_bad = none
    ∧ (process_slide_title c3_good).isSome = true
    ∧ generate_ppt [c3_bad, c3_good] = none := by decide

def c3w_frag : List Char := "no newline here".toList

/-- Witness for C3 (amended) at a concrete malformed fragment. -/
theorem malformed_fragment_aborts_witness :
    c3w_frag ∈ [c3w_frag] ∧ process_slide_title c3w_frag = none
    ∧ generate_ppt [c3w_frag] = none :=
  ⟨by decide, by decide,
    malformed_fragment_aborts [c3w_frag] c3w_frag (by decide) (by decide)⟩

/-- C1 (amended): with a missing (or empty) credential, generate_content
returns the sentinel "Error"-prefixed string in both variants; variant B's
create_presentation propagates it, so no byte stream is assembled — but
variant A never checks the sentinel: create_presentation still assembles
and writes a presentation file whose content slides carry the error text. -/
theorem missing_key_behavior (key : Option (List Char)) (g : List Char → List Char)
    (title : List Char) (topics : List (List Char)) (h : key_missing key = true) :
    create_presentationB key g title topics = Sum.inl ERR_MISSING_KEY
    ∧ py_startswith ERROR_PREFIX ERR_MISSING_KEY = true
    ∧ (create_presentationA key g title topics).2
        = titleSlideA title :: topics.flatMap (fun topic => topic_slides ERR_MISSING_KEY topic) := by
  have hgenB : generate_content key g (promptB title topics) = ERR_MISSING_KEY := by
    simp [generate_content, h]
  have hgenA : generate_content key g (promptA title topics) = ERR_MISSING_KEY := by
    simp [generate_content, h]
  refine ⟨?_, by decide, ?_⟩
  · unfold create_presentationB
    rw [hgenB]
    rfl
  · show (titleSlideA title :: topics.flatMap (fun topic =>
        topic_slides (generate_content key g (promptA title topics)) topic)) = _
    rw [hgenA]

def c1_g : List Char → List Char := fun _ => []

def c1_title : List Char := "T".toList

def c1_topic : List Char := "A".toList

/-- C1 counterexample to the claim as stated ("no presentation file is
written in variant A"): with the credential absent, App.py still saves a
file T.pptx holding a 2-slide deck whose content slide's body is the error
sentinel. -/
theorem missing_key_variantA_writes_file :
    (create_presentationA none c1_g c1_title [c1_topic]).1 = "T.pptx".toList
    ∧ ((create_presentationA none c1_g c1_title [c1_topic]).2).length = 2
    ∧ ((create_presentationA none c1_g c1_title [c1_topic]).2).getLast?
        = some ⟨1, c1_topic, ERR_MISSING_KEY⟩ := by decide

def c1w_g : List Char → List Char := fun _ => "unused".toList

def c1w_title : List Char := "U".toList

/-- Witness for C1 (amended) at a concrete missing key. -/
theorem missing_key_behavior_witness :
    create_presentationB none c1w_g c1w_title [] = Sum.inl ERR_MISSING_KEY
    ∧ py_startswith ERROR_PREFIX ERR_MISSING_KEY = true
    ∧ (create_presentationA none c1w_g c1w_title []).2
        = titleSlideA c1w_title :: List.flatMap [] (fun topic => topic_slides ERR_MISSING_KEY topic) :=
  missing_key_behavior none c1w_g c1w_title [] (by decide)

theorem generate_ppt_spec : ∀ frs slides, generate_ppt frs = some slides →
    slides.length = frs.length ∧ ∀ s ∈ slides, s.layout = 1 := by
  intro frs
  induction frs with
  | nil =>
    intro slides h
    simp [generate_ppt] at h
    subst h
    simp
  | cons a rest ih =>
    intro slides h
    cases hpa : process_slide_title a with
    | none => simp [generate_ppt, hpa] at h
    | some x =>
      cases hrec : generate_ppt rest with
      | none => simp [generate_ppt, hpa, hrec] at h
      | some rs =>
        have h' : (⟨1, x.1 ++ '.' :: x.2.1, x.2.2⟩ : Slide) :: rs = slides := by
          simpa [generate_ppt, hpa, hrec] using h
        obtain ⟨hlen, hall⟩ := ih rs hrec
        rw [← h']
        refine ⟨by simp [hlen], ?_⟩
        intro s hs
        rcases List.mem_cons.mp hs with rfl | hm
        · rfl
        · exact hall s hm

/-- C2 (amended): in variant A the deck is exactly one title slide (the
head, layout 0) followed by only content slides (layout 1), at least one
per topic, so for a non-empty topics list the deck has at least two slides
and exactly one title slide.  In variant B, however, whenever generate_ppt
succeeds it produces exactly one content slide per fragment and no title
slide at all. -/
theorem deck_shape (key : Option (List Char)) (g : List Char → List Char)
    (title : List Char) (topics : List (List Char)) (hne : topics ≠ [])
    (frs : List (List Char)) (slides_b : List Slide)
    (hB : generate_ppt frs = some slides_b) :
    ((create_presentationA key g title topics).2).head? = some (titleSlideA title)
    ∧ (titleSlideA title).layout = 0
    ∧ (∀ s ∈ ((create_presentationA key g title topics).2).tail, s.layout = 1)
    ∧ ((create_presentationA key g title topics).2).countP (fun s => s.layout == 0) = 1
    ∧ (∀ t ∈ topics, ∃ s ∈ ((create_presentationA key g title topics).2).tail,
        s.title = t ∧ s.layout = 1)
    ∧ 2 ≤ ((create_presentationA key g title topics).2).length
    ∧ slides_b.length = frs.length
    ∧ (∀ s ∈ slides_b, s.layout = 1) := by
  have hdeck : (create_presentationA key g title topics).2
      = titleSlideA title :: topics.flatMap (fun topic =>
          topic_slides (generate_content key g (promptA title topics)) topic) := rfl
  have htail' : ((create_presentationA key g title topics).2).tail
      = topics.flatMap (fun topic =>
          topic_slides (generate_content key g (promptA title topics)) topic) := by
    rw [hdeck]
    rfl
  have hchunks : split_content (generate_content key g (promptA title topics)) 900 ≠ [] :=
    split_content_fuel_ne_nil _ _ _ _
      (split_content_eq_fuel (generate_content key g (promptA title topics)) 900 (by omega))
  have htail : ∀ s ∈ topics.flatMap (fun topic =>
      topic_slides (generate_content key g (promptA title topics)) topic), s.layout = 1 := by
    intro s hs
    rw [List.mem_flatMap] at hs
    obtain ⟨t, ht, hst⟩ := hs
    simp only [topic_slides, List.mem_map] at hst
    obtain ⟨ch, hch, hrfl⟩ := hst
    rw [← hrfl]
  have hseg : ∀ t ∈ topics, ∃ s ∈ topics.flatMap (fun topic =>
      topic_slides (generate_content key g (promptA title topics)) topic),
      s.title = t ∧ s.layout = 1 := by
    intro t ht
    obtain ⟨ch, chs, hch⟩ := List.exists_cons_of_ne_nil hchunks
    have hchmem : ch ∈ split_content (generate_content key g (promptA title topics)) 900 := by
      rw [hch]; exact List.mem_cons_self _ _
    refine ⟨⟨1, t, ch⟩, ?_, rfl, rfl⟩
    rw [List.mem_flatMap]
    refine ⟨t, ht, ?_⟩
    simp only [topic_slides, List.mem_map]
    exact ⟨ch, hchmem, rfl⟩
  have hcount : ((create_presentationA key g title topics).2).countP
      (fun s => s.layout == 0) = 1 := by
    rw [hdeck, List.countP_cons]
    have hz : (topics.flatMap (fun topic =>
        topic_slides (generate_content key g (promptA title topics)) topic)).countP
        (fun s => s.layout == 0) = 0 := by
      rw [List.countP_eq_zero]
      intro s hs
      have hl := htail s hs
      simp [hl]
    rw [hz]
    rfl
  have hlen2 : 2 ≤ ((create_presentationA key g title topics).2).length := by
    rw [hdeck]
    set c := generate_content key g (promptA title topics) with hc
    obtain ⟨t, ts, hts⟩ := List.exists_cons_of_ne_nil hne
    rw [hts]
    simp only [List.length_cons, List.flatMap_cons, List.length_append]
    have hpos : 0 < (topic_slides c t).length := by
      simp only [topic_slides, List.length_map]
      exact List.length_pos.mpr hchunks
    omega
  refine ⟨by rw [hdeck]; rfl, rfl, by rw [htail']; exact htail, hcount,
    by rw [htail']; exact hseg, hlen2,
    (generate_ppt_spec frs slides_b hB).1, (generate_ppt_spec frs slides_b hB).2⟩

def c2w_g : List Char → List Char := fun _ => "blob".toList

def c2w_title : List Char := "W".toList

def c2w_topics : List (List Char) := [ "A".toList]

def c2w_frag : List Char := "Slide 3: W\n*q".toList

def c2w_slide : Slide := ⟨1, "3.W".toList, "q".toList⟩

/-- Witness for C2 (amended) at concrete inputs for both variants. -/
theorem deck_shape_witness :
    ((create_presentationA none c2w_g c2w_title c2w_topics).2).head? = some (titleSlideA c2w_title)
    ∧ (titleSlideA c2w_title).layout = 0
    ∧ (∀ s ∈ ((create_presentationA none c2w_g c2w_title c2w_topics).2).tail, s.layout = 1)
    ∧ ((create_presentationA none c2w_g c2w_title c2w_topics).2).countP
        (fun s => s.layout == 0) = 1
    ∧ (∀ t ∈ c2w_topics, ∃ s ∈ ((create_presentationA none c2w_g c2w_title c2w_topics).2).tail,
        s.title = t ∧ s.layout = 1)
    ∧ 2 ≤ ((create_presentationA none c2w_g c2w_title c2w_topics).2).length
    ∧ ([c2w_slide] : List Slide).length = [c2w_frag].length
    ∧ (∀ s ∈ [c2w_slide], s.layout = 1) :=
  deck_shape none c2w_g c2w_title c2w_topics (by decide) [c2w_frag] [c2w_slide] (by decide)

def c2_keystr : List Char := "k".toList

def c2_blob : List Char := "Slide 1: A\n*p1\n\nSlide 2: B\n*p2".toList

def c2_frag1 : List Char := "Slide 1: A\n*p1".toList

def c2_frag2 : List Char := "Slide 2: B\n*".toList

def c2_slide1 : Slide := ⟨1, "1.A".toList, "p1".toList⟩

def c2_slide2 : Slide := ⟨1, "2.B".toList, []⟩

def c2_title : List Char := "V".toList

def c2_topic : List Char := "A".toList

/-- C2 counterexample to the claim as stated for variant B: a run of the
full App1.py pipeline on a well-formed two-marker blob produces a two-slide
deck containing zero title slides (every slide uses the title-and-content
layout), not "exactly one title slide followed by content slides". -/
theorem variantB_no_title_slide :
    create_presentationB (some c2_keystr) (fun _ => c2_blob) c2_title [c2_topic]
        = Sum.inr [c2_frag1, c2_frag2]
    ∧ generate_ppt [c2_frag1, c2_frag2] = some [c2_slide1, c2_slide2]
    ∧ List.countP (fun s => s.layout == 0) [c2_slide1, c2_slide2] = 0 := by decide

theorem marker_head_spec (l : List Char) (h : Nat) (hm : marker_head l = some h) :
    l.take 6 = SLIDE_SP
    ∧ 1 ≤ ((l.drop 6).takeWhile is_digit).length
    ∧ (l.drop (6 + ((l.drop 6).takeWhile is_digit).length)).head? = some ':'
    ∧ h = 6 + ((l.drop 6).takeWhile is_digit).length + 1 := by
  unfold marker_head at hm
  split_ifs at hm with h1 h2
  · exact ⟨h1, h2.1, h2.2, (Option.some.inj hm).symm⟩

theorem take6_shape (l : List Char) (h : l.take 6 = SLIDE_SP) :
    l = 'S' :: 'l' :: 'i' :: 'd' :: 'e' :: ' ' :: l.drop 6 := by
  conv_lhs => rw [← List.take_append_drop 6 l, h]
  rfl

theorem marker_head_ge (l : List Char) (h : Nat) (hm : marker_head l = some h) : 8 ≤ h := by
  obtain ⟨_, hd, _, hh⟩ := marker_head_spec l h hm
  omega

theorem marker_head_le (l : List Char) (h : Nat) (hm : marker_head l = some h) :
    h ≤ l.length := by
  obtain ⟨_, hd, hcolon, hh⟩ := marker_head_spec l h hm
  have hne : l.drop (6 + ((l.drop 6).takeWhile is_digit).length) ≠ [] := by
    intro he
    rw [he] at hcolon
    cases hcolon
  have hpos := List.length_pos.mpr hne
  rw [List.length_drop] at hpos
  omega

theorem takeWhile_head_digit : ∀ (n : Nat) (r : List Char),
    n < (r.takeWhile is_digit).length →
    ∃ c, (r.drop n).head? = some c ∧ is_digit c = true := by
  intro n
  induction n with
  | zero =>
    intro r hr
    cases r with
    | nil => simp at hr
    | cons c t =>
      by_cases hc : is_digit c
      · exact ⟨c, by simp, hc⟩
      · rw [List.takeWhile_cons_of_neg hc] at hr
        simp at hr
  | succ n ih =>
    intro r hr
    cases r with
    | nil => simp at hr
    | cons c t =>
      by_cases hc : is_digit c
      · rw [List.takeWhile_cons_of_pos hc, List.length_cons] at hr
        have hrec := ih t (by omega)
        simpa [List.drop_succ_cons] using hrec
      · rw [List.takeWhile_cons_of_neg hc] at hr
        simp at hr

theorem marker_head_none_of_head (m : List Char)
    (hne : ∀ c, m.head? = some c → ¬ c = 'S') : marker_head m = none := by
  cases hcase : marker_head m with
  | none => rfl
  | some v =>
    exfalso
    have h6 := (marker_head_spec m v hcase).1
    have hS : m.head? = some 'S' := by rw [take6_shape m h6]; rfl
    exact hne 'S' hS rfl

theorem marker_head_interior (l : List Char) (h : Nat) (hm : marker_head l = some h) :
    ∀ i, 1 ≤ i → i < h → marker_head (l.drop i) = none := by
  obtain ⟨h6, hd, hcolon, hh⟩ := marker_head_spec l h hm
  intro i h1 hi
  apply marker_head_none_of_head
  intro c hc hS
  subst hS
  have hshape := take6_shape l h6
  rcases lt_or_ge i 6 with hi6 | hi6
  · interval_cases i
    · rw [hshape] at hc; exact absurd (Option.some.inj hc) (by decide)
    · rw [hshape] at hc; exact absurd (Option.some.inj hc) (by decide)
    · rw [hshape] at hc; exact absurd (Option.some.inj hc) (by decide)
    · rw [hshape] at hc; exact absurd (Option.some.inj hc) (by decide)
    · rw [hshape] at hc; exact absurd (Option.some.inj hc) (by decide)
  · rcases lt_or_ge i (6 + ((l.drop 6).takeWhile is_digit).length) with hid | hid
    · obtain ⟨cd, hcd, hdig⟩ := takeWhile_head_digit (i - 6) (l.drop 6) (by omega)
      rw [List.drop_drop] at hcd
      have h6i : 6 + (i - 6) = i := by omega
      rw [h6i] at hcd
      have hcs : cd = 'S' := Option.some.inj (hcd.symm.trans hc)
      rw [hcs] at hdig
      exact absurd hdig (by decide)
    · have hieq : i = 6 + ((l.drop 6).takeWhile is_digit).length := by omega
      rw [hieq] at hc
      exact absurd (hcolon.symm.trans hc) (by decide)

theorem stop_here_interior (l : List Char) (h : Nat) (hm : marker_head l = some h) :
    ∀ i, 1 ≤ i → i < h → stop_here (l.drop i) = false := by
  intro i h1 hi
  have hmnone := marker_head_interior l h hm i h1 hi
  have hhle := marker_head_le l h hm
  have hlen : (l.drop i).length = l.length - i := List.length_drop ..
  have hpos : 0 < (l.drop i).length := by rw [hlen]; omega
  have hne : l.drop i ≠ [] := by
    intro he
    rw [he] at hpos
    exact absurd hpos (by decide)
  have hnnl : l.drop i ≠ ['\n'] := by
    intro he
    have hl1 : (l.drop i).length = 1 := by rw [he]; rfl
    rw [hlen] at hl1
    have hcolon := (marker_head_spec l h hm).2.2.1
    have hh := (marker_head_spec l h hm).2.2.2
    have hieq : i = 6 + ((l.drop 6).takeWhile is_digit).length := by omega
    rw [hieq] at he
    rw [he] at hcolon
    exact absurd hcolon (by decide)
  simp only [stop_here, hmnone, Option.isSome_none, Bool.false_or, is_dollar,
    Bool.or_eq_false_iff, beq_eq_false_iff_ne, ne_eq]
  exact ⟨hne, hnnl⟩

theorem marker_none_of_stop (m : List Char) (h : stop_here m = false) :
    marker_head m = none := by
  cases hm : marker_head m with
  | none => rfl
  | some v =>
    exfalso
    rw [stop_here, hm] at h
    simp at h

theorem lazy_scan_le (l : List Char) : lazy_scan l ≤ l.length := by
  induction l with
  | nil => simp [lazy_scan]
  | cons c t ih =>
    rw [lazy_scan]
    by_cases hs : stop_here (c :: t) = true
    · rw [if_pos hs]; omega
    · rw [if_neg hs]
      simp only [List.length_cons]
      omega

theorem lazy_scan_stop (l : List Char) : stop_here (l.drop (lazy_scan l)) = true := by
  induction l with
  | nil => decide
  | cons c t ih =>
    by_cases hs : stop_here (c :: t) = true
    · rw [lazy_scan, if_pos hs, List.drop_zero]
      exact hs
    · rw [lazy_scan, if_neg hs, List.drop_succ_cons]
      exact ih

theorem lazy_scan_min (l : List Char) : ∀ i, i < lazy_scan l →
    stop_here (l.drop i) = false := by
  induction l with
  | nil => intro i hi; rw [lazy_scan] at hi; omega
  | cons c t ih =>
    intro i hi
    by_cases hs : stop_here (c :: t) = true
    · rw [lazy_scan, if_pos hs] at hi; omega
    · rw [lazy_scan, if_neg hs] at hi
      cases i with
      | zero =>
        rw [List.drop_zero]
        exact Bool.eq_false_iff.mpr hs
      | succ n =>
        rw [List.drop_succ_cons]
        exact ih n (by omega)

theorem marker_count_cons_eq (l : List Char) :
    marker_count l = (if (marker_head l).isSome then 1 else 0) + marker_count (l.drop 1) := by
  cases l with
  | nil => decide
  | cons c t => rfl

theorem marker_count_drop_none : ∀ (j : Nat) (l : List Char),
    (∀ i, i < j → marker_head (l.drop i) = none) →
    marker_count l = marker_count (l.drop j) := by
  intro j
  induction j with
  | zero => intro l _; rw [List.drop_zero]
  | succ n ih =>
    intro l h
    have h1 : marker_count l = marker_count (l.drop n) := ih l (fun i hi => h i (by omega))
    rw [h1, marker_count_cons_eq (l.drop n), h n (by omega)]
    simp [List.drop_drop]

theorem marker_count_split (l : List Char) (j : Nat)
    (h0 : (marker_head l).isSome = true) (hj : 1 ≤ j)
    (hmid : ∀ i, 1 ≤ i → i < j → marker_head (l.drop i) = none) :
    marker_count l = 1 + marker_count (l.drop j) := by
  rw [marker_count_cons_eq l, h0]
  have hmid' : ∀ i, i < j - 1 → marker_head ((l.drop 1).drop i) = none := by
    intro i hi
    rw [List.drop_drop]
    exact hmid (1 + i) (by omega) (by omega)
  have h2 := marker_count_drop_none (j - 1) (l.drop 1) hmid'
  rw [h2, List.drop_drop]
  have hjeq : 1 + (j - 1) = j := by omega
  rw [hjeq]
  simp

/-- A regex match within blob l: the span l[p:q] begins at a well-formed
marker, ends at the first following stopping position (the next marker or a
position where $ matches), and contains no stopping position strictly
inside. -/
def SpanOf (l f : List Char) : Prop :=
  ∃ p q, (marker_head (l.drop p)).isSome = true ∧ p < q ∧ q ≤ l.length
    ∧ stop_here (l.drop q) = true
    ∧ (∀ i, p < i → i < q → stop_here (l.drop i) = false)
    ∧ f = (l.drop p).take (q - p)

theorem SpanOf_shift (l : List Char) (j : Nat) (hj : j ≤ l.length) (f : List Char)
    (h : SpanOf (l.drop j) f) : SpanOf l f := by
  obtain ⟨p, q, hmark, hpq, hql, hstop, hmin, hf⟩ := h
  have hqlen : q ≤ l.length - j := by
    rw [List.length_drop] at hql
    exact hql
  refine ⟨j + p, j + q, ?_, by omega, by omega, ?_, ?_, ?_⟩
  · rw [show l.drop (j + p) = (l.drop j).drop p from by rw [List.drop_drop]]
    exact hmark
  · rw [show l.drop (j + q) = (l.drop j).drop q from by rw [List.drop_drop]]
    exact hstop
  · intro i hi1 hi2
    have hij : j ≤ i := by omega
    rw [show l.drop i = (l.drop j).drop (i - j) from by rw [List.drop_drop]; congr 1; omega]
    exact hmin (i - j) (by omega) (by omega)
  · rw [hf]
    rw [show l.drop (j + p) = (l.drop j).drop p from by rw [List.drop_drop]]
    congr 1
    omega

theorem scan_fuel_spec : ∀ (fuel : Nat) (l : List Char), l.length < fuel →
    (scan_fuel fuel l).length = marker_count l
    ∧ ∀ f ∈ scan_fuel fuel l, SpanOf l f := by
  intro fuel
  induction fuel with
  | zero => intro l hl; omega
  | succ n ih =>
    intro l hl
    cases hm : marker_head l with
    | none =>
      cases l with
      | nil =>
        have heq : scan_fuel (n+1) ([] : List Char) = [] := by simp [scan_fuel, hm]
        constructor
        · rw [heq]; rfl
        · intro f hf
          rw [heq] at hf
          cases hf
      | cons c t =>
        have heq : scan_fuel (n+1) (c :: t) = scan_fuel n t := by
          simp [scan_fuel, hm]
        have hcount : marker_count (c :: t) = marker_count t := by
          rw [marker_count_cons_eq (c :: t), hm]
          simp
        obtain ⟨ihc, ihs⟩ := ih t (by simpa using Nat.lt_of_succ_lt_succ (by simpa using hl))
        constructor
        · rw [heq, ihc, hcount]
        · intro f hf
          rw [heq] at hf
          have hsp := ihs f hf
          have ht : t = (c :: t).drop 1 := rfl
          rw [ht] at hsp
          exact SpanOf_shift (c :: t) 1 (by simp) f hsp
    | some hl' =>
      have h8 : 8 ≤ hl' := marker_head_ge l hl' hm
      have hlle : hl' ≤ l.length := marker_head_le l hl' hm
      have hlz := lazy_scan_le (l.drop hl')
      rw [List.length_drop] at hlz
      have hjle : hl' + lazy_scan (l.drop hl') ≤ l.length := by omega
      have heq : scan_fuel (n+1) l
          = l.take (hl' + lazy_scan (l.drop hl'))
            :: scan_fuel n (l.drop (hl' + lazy_scan (l.drop hl'))) := by
        simp [scan_fuel, hm]
      have hstopj : stop_here (l.drop (hl' + lazy_scan (l.drop hl'))) = true := by
        rw [show l.drop (hl' + lazy_scan (l.drop hl'))
            = (l.drop hl').drop (lazy_scan (l.drop hl')) from by rw [List.drop_drop]]
        exact lazy_scan_stop (l.drop hl')
      have hmin : ∀ i, 0 < i → i < hl' + lazy_scan (l.drop hl') →
          stop_here (l.drop i) = false := by
        intro i h0 hij
        rcases lt_or_ge i hl' with hi | hi
        · exact stop_here_interior l hl' hm i h0 hi
        · rw [show l.drop i = (l.drop hl').drop (i - hl') from by
            rw [List.drop_drop]; congr 1; omega]
          exact lazy_scan_min (l.drop hl') (i - hl') (by omega)
      have hcount : marker_count l
          = 1 + marker_count (l.drop (hl' + lazy_scan (l.drop hl'))) := by
        apply marker_count_split l _ (by rw [hm]; rfl) (by omega)
        intro i hi1 hi2
        exact marker_none_of_stop _ (hmin i hi1 hi2)
      have hrec : (l.drop (hl' + lazy_scan (l.drop hl'))).length < n := by
        rw [List.length_drop]
        omega
      obtain ⟨ihc, ihs⟩ := ih (l.drop (hl' + lazy_scan (l.drop hl'))) hrec
      constructor
      · rw [heq, List.length_cons, ihc, hcount]
        omega
      · intro f hf
        rw [heq] at hf
        rcases List.mem_cons.mp hf with rfl | hmem
        · refine ⟨0, hl' + lazy_scan (l.drop hl'), ?_, by omega, hjle, hstopj, ?_, ?_⟩
          · rw [List.drop_zero, hm]; rfl
          · intro i hi1 hi2
            exact hmin i hi1 hi2
          · rw [List.drop_zero, Nat.sub_zero]
        · exact SpanOf_shift l (hl' + lazy_scan (l.drop hl')) hjle f (ihs f hmem)

/-- C6: a blob containing exactly k well-formed "Slide n:" markers yields
exactly k fragments from split_into_slides, and every raw regex match spans
from its marker up to the next stopping position (the next marker, or the
end of the text where $ matches), with no stop strictly inside. -/
theorem split_into_slides_count (s : List Char) (k : Nat) (hk : marker_count s = k) :
    (split_into_slides s).length = k
    ∧ ∀ f ∈ findall_slides s, SpanOf s f := by
  obtain ⟨hc, hs⟩ := scan_fuel_spec (s.length + 1) s (by omega)
  constructor
  · rw [split_into_slides, List.length_map]
    show (scan_fuel (s.length + 1) s).length = k
    rw [hc, hk]
  · exact hs

def c6_blob : List Char := "Slide 1: A\nx\nSlide 2: B".toList

/-- Witness for C6 at a concrete blob with two markers. -/
theorem split_into_slides_count_witness :
    (split_into_slides c6_blob).length = 2
    ∧ ∀ f ∈ findall_slides c6_blob, SpanOf c6_blob f :=
  split_into_slides_count c6_blob 2 (by decide)

/-- C10: when the key is present, the topics parse to a non-empty list, and
the generated text neither starts with "Error" nor contains any
"Slide <n>:" marker, the segmenter returns an empty fragment list and the
App1.py submit handler reports success and offers the empty (zero-slide)
deck for download; no error is surfaced. -/
theorem markerless_output_empty_deck_success (key : Option (List Char))
    (g : List Char → List Char) (title : List Char) (topics_input : List Char)
    (hkey : key_missing key = false)
    (hne : (parse_topics topics_input).isEmpty = false)
    (herr : py_startswith ERROR_PREFIX (g (promptB title (parse_topics topics_input))) = false)
    (hmk : marker_count (g (promptB title (parse_topics topics_input))) = 0) :
    split_into_slides (g (promptB title (parse_topics topics_input))) = []
    ∧ submitB key g title topics_input = UIOutcomeB.downloadOffered [] := by
  have hscan : findall_slides (g (promptB title (parse_topics topics_input))) = [] := by
    apply List.length_eq_zero.mp
    have hc := (scan_fuel_spec ((g (promptB title (parse_topics topics_input))).length + 1)
      (g (promptB title (parse_topics topics_input))) (by omega)).1
    show (scan_fuel _ _).length = 0
    rw [hc, hmk]
  have hsplit : split_into_slides (g (promptB title (parse_topics topics_input))) = [] := by
    rw [split_into_slides, hscan]
    rfl
  have hgen : generate_content key g (promptB title (parse_topics topics_input))
      = g (promptB title (parse_topics topics_input)) := by
    simp [generate_content, hkey]
  have hcreate : create_presentationB key g title (parse_topics topics_input)
      = Sum.inr [] := by
    unfold create_presentationB
    rw [hgen, if_neg (by simp [herr]), hsplit]
    rfl
  refine ⟨hsplit, ?_⟩
  unfold submitB
  rw [if_neg (by simp [hne]), hcreate]
  rfl

def c10_key : List Char := "k".toList

def c10_g : List Char → List Char := fun _ => "hello".toList

def c10_title : List Char := "T".toList

def c10_input : List Char := "A".toList

/-- Witness for C10 at a concrete marker-free blob. -/
theorem markerless_output_empty_deck_success_witness :
    split_into_slides (c10_g (promptB c10_title (parse_topics c10_input))) = []
    ∧ submitB (some c10_key) c10_g c10_title c10_input = UIOutcomeB.downloadOffered [] :=
  markerless_output_empty_deck_success (some c10_key) c10_g c10_title c10_input
    (by decide) (by decide) (by decide) (by decide)

end PPTGen
